import Mathlib

/-!
Verification of the asset export and legacy migration pipeline.

The Python sources are shallowly embedded:
- numpy image matrices (`np.ndarray` of shape h × w × c) become
  `List (List (List Nat))` (rows of pixels of channel values);
- byte values are `Nat` with an explicit `% 256` where the code calls
  `astype(np.uint8)`;
- code that can raise an exception is embedded in `Option`/explicit
  error results;
- the filesystem becomes an explicit state value threaded through the
  legacy-converter functions.
-/

namespace ExportService

/-- A raster image as a list of rows; each row is a list of pixels; each
pixel is a list of channel values (`mat : np.ndarray`, shape h × w × c). -/
abbrev Mat := List (List (List Nat))

/-- `cv2.rotate(mat, cv2.ROTATE_180)`: both axes reversed. -/
def rotate180 (mat : Mat) : Mat := (mat.map List.reverse).reverse

/-- `mat[::-1, :, :]`: the row axis reversed. -/
def rowRev (mat : Mat) : Mat := mat.reverse

/-- `mat.astype(np.uint8)`: every channel value reduced mod 256. -/
def astypeU8 (mat : Mat) : Mat := mat.map (fun row => row.map (fun p => p.map (· % 256)))

/-- `c` as read from `mat.shape` (the channel count of the first pixel). -/
def shapeC (mat : Mat) : Nat :=
  match mat with
  | [] => 0
  | row :: _ =>
    match row with
    | [] => 0
    | p :: _ => p.length

/-- One pixel of `ExportWorker._generate_logo`:
`b, g, r = mat[y, x][:3]; f.write(struct.pack("BBBB", b, g, r, 255))`.
Fewer than 3 channels raises in Python, hence `none`. -/
def packLogoPixel : List Nat → Option (List Nat)
  | b :: g :: r :: _ => some [b, g, r, 255]
  | _ => none

/-- One pixel of `ExportWorker._generate_overlay_display`: when the shape
has 4 channels, `b, g, r, a = mat[y, x]`; otherwise
`b, g, r = mat[y, x][:3]` and `a = 255`. -/
def packOdPixel (c : Nat) (p : List Nat) : Option (List Nat) :=
  if c = 4 then
    match p with
    | [b, g, r, a] => some [b, g, r, a]
    | _ => none
  else
    match p with
    | b :: g :: r :: _ => some [b, g, r, 255]
    | _ => none

/-- The inner write loop (`for x in range(w)`): one 4-byte group per
pixel, concatenated; the first pixel that raises aborts the row. -/
def packSeq (pack : List Nat → Option (List Nat)) : List (List Nat) → Option (List Nat)
  | [] => some []
  | p :: ps =>
    match pack p, packSeq pack ps with
    | some g, some rest => some (g ++ rest)
    | _, _ => none

/-- The outer write loop (`for y in range(h)`): rows packed in order and
concatenated into the output file. -/
def packRows (pack : List Nat → Option (List Nat)) : Mat → Option (List Nat)
  | [] => some []
  | row :: rows =>
    match packSeq pack row, packRows pack rows with
    | some rb, some rest => some (rb ++ rest)
    | _, _ => none

/-- `ExportWorker._generate_logo` (the bytes it writes):
rotate 180°, reverse the rows again, `astype(np.uint8)`, then pack each
pixel as B,G,R,255. -/
def generate_logo (mat : Mat) : Option (List Nat) :=
  packRows packLogoPixel (astypeU8 (rowRev (rotate180 mat)))

/-- `ExportWorker._generate_overlay_display` (the bytes it writes):
rotate 180°, `astype(np.uint8)`, then pack each pixel as B,G,R,A
(alpha from the pixel when the shape has 4 channels, else 255). -/
def generate_overlay_display (mat : Mat) : Option (List Nat) :=
  let m := astypeU8 (rotate180 mat)
  packRows (packOdPixel (shapeC m)) m

/-- A horizontal mirror: every row reversed, row order kept. -/
def hmirror (mat : Mat) : Mat := mat.map List.reverse

/-- Well-formedness of an h × w × c image: the numpy shape invariants,
plus every channel value already fits in a byte. -/
def WF (mat : Mat) (h w c : Nat) : Prop :=
  mat.length = h ∧
  ∀ row ∈ mat, row.length = w ∧ ∀ p ∈ row, p.length = c ∧ ∀ v ∈ p, v < 256

instance (mat : Mat) (h w c : Nat) : Decidable (WF mat h w c) := by
  unfold WF; infer_instance

/-- The pixel of `mat` at row `y`, column `x` (empty list out of range). -/
def pixAt (mat : Mat) (y x : Nat) : List Nat := ((mat[y]?.getD [])[x]?.getD [])

/-- The 4-byte group of pixel `(y, x)` inside a packed w-wide byte stream. -/
def pixelGroup (bs : List Nat) (w y x : Nat) : List Nat :=
  (bs.drop (4 * (y * w + x))).take 4

/-- Total form of the logo pixel pack (valid on pixels of length ≥ 3). -/
def packLogoT (p : List Nat) : List Nat := p.take 3 ++ [255]

/-- Total form of the overlay/display pixel pack. -/
def packOdT (c : Nat) (p : List Nat) : List Nat :=
  if c = 4 then p else p.take 3 ++ [255]

theorem packLogoPixel_eq (p : List Nat) (hp : 3 ≤ p.length) :
    packLogoPixel p = some (packLogoT p) := by
  match p, hp with
  | b :: g :: r :: rest, _ => simp [packLogoPixel, packLogoT]

theorem packOdPixel_eq (c : Nat) (p : List Nat)
    (h4 : c = 4 → p.length = 4) (h3 : c ≠ 4 → 3 ≤ p.length) :
    packOdPixel c p = some (packOdT c p) := by
  by_cases hc : c = 4
  · subst hc
    match p, h4 rfl with
    | [b, g, r, a], _ => simp [packOdPixel, packOdT]
  · have := h3 hc
    match p, this with
    | b :: g :: r :: rest, _ => simp [packOdPixel, packOdT, hc]

theorem packSeq_eq (pack : List Nat → Option (List Nat)) (packT : List Nat → List Nat)
    (ps : List (List Nat)) (h : ∀ p ∈ ps, pack p = some (packT p)) :
    packSeq pack ps = some ((ps.map packT).flatten) := by
  induction ps with
  | nil => simp [packSeq]
  | cons p ps ih =>
    have hp := h p (List.mem_cons_self p ps)
    have hps := ih (fun q hq => h q (List.mem_cons_of_mem p hq))
    simp [packSeq, hp, hps]

theorem packRows_eq (pack : List Nat → Option (List Nat)) (packT : List Nat → List Nat)
    (mat : Mat) (h : ∀ row ∈ mat, ∀ p ∈ row, pack p = some (packT p)) :
    packRows pack mat =
      some ((mat.map (fun row => (row.map packT).flatten)).flatten) := by
  induction mat with
  | nil => simp [packRows]
  | cons row rows ih =>
    have hrow := packSeq_eq pack packT row (h row (List.mem_cons_self row rows))
    have hrows := ih (fun r hr => h r (List.mem_cons_of_mem row hr))
    simp [packRows, hrow, hrows]

theorem flatten_length_uniform {L : Nat} (rows : List (List Nat))
    (h : ∀ r ∈ rows, r.length = L) : rows.flatten.length = rows.length * L := by
  induction rows with
  | nil => simp
  | cons r rows ih =>
    have hr := h r (List.mem_cons_self r rows)
    have := ih (fun s hs => h s (List.mem_cons_of_mem r hs))
    simp [this, hr, Nat.succ_mul, Nat.add_comm]

theorem flatten_drop_uniform {L : Nat} (rows : List (List Nat))
    (h : ∀ r ∈ rows, r.length = L) (y : Nat) :
    rows.flatten.drop (y * L) = (rows.drop y).flatten := by
  induction y generalizing rows with
  | zero => simp
  | succ y ih =>
    match rows with
    | [] => simp
    | r :: rows =>
      have hr := h r (List.mem_cons_self r rows)
      have hstep : (y + 1) * L = r.length + y * L := by
        rw [hr]; ring
      calc ((r :: rows).flatten).drop ((y + 1) * L)
          = (r ++ rows.flatten).drop (r.length + y * L) := by rw [hstep]; simp
        _ = rows.flatten.drop (y * L) := List.drop_append _
        _ = (rows.drop y).flatten := ih rows (fun s hs => h s (List.mem_cons_of_mem r hs))

/-- Indexing one packed 4-byte pixel group out of the full packed byte
stream of a w-wide image. -/
theorem pixelGroup_of_packed (packT : List Nat → List Nat) (mat : Mat) (w : Nat)
    (hw : ∀ row ∈ mat, row.length = w)
    (hlen : ∀ row ∈ mat, ∀ p ∈ row, (packT p).length = 4)
    (y x : Nat) (hy : y < mat.length) (hx : x < w) :
    pixelGroup ((mat.map (fun row => (row.map packT).flatten)).flatten) w y x
      = packT (pixAt mat y x) := by
  have hrowsBlen : ∀ rb ∈ mat.map (fun row => (row.map packT).flatten),
      rb.length = w * 4 := by
    intro rb hrb
    obtain ⟨row, hrow, rfl⟩ := List.mem_map.mp hrb
    have h4 : ∀ g ∈ row.map packT, g.length = 4 := by
      intro g hg
      obtain ⟨p, hp, rfl⟩ := List.mem_map.mp hg
      exact hlen row hrow p hp
    rw [flatten_length_uniform _ h4, List.length_map, hw row hrow]
  have hsplit : 4 * (y * w + x) = y * (w * 4) + x * 4 := by ring
  unfold pixelGroup
  rw [hsplit, ← List.drop_drop, flatten_drop_uniform _ hrowsBlen y]
  have hylen : y < (mat.map (fun row => (row.map packT).flatten)).length := by
    rw [List.length_map]; exact hy
  rw [List.drop_eq_getElem_cons hylen]
  have hgetB : (mat.map (fun row => (row.map packT).flatten))[y]
      = (mat[y].map packT).flatten := List.getElem_map _
  rw [List.flatten_cons, hgetB]
  have hrowmem : mat[y] ∈ mat := List.getElem_mem hy
  have hgl : ∀ g ∈ mat[y].map packT, g.length = 4 := by
    intro g hg
    obtain ⟨p, hp, rfl⟩ := List.mem_map.mp hg
    exact hlen _ hrowmem p hp
  have hxlen : x * 4 ≤ (mat[y].map packT).flatten.length := by
    rw [flatten_length_uniform _ hgl, List.length_map, hw _ hrowmem]
    exact Nat.mul_le_mul_right 4 (Nat.le_of_lt hx)
  rw [List.drop_append_of_le_length hxlen, flatten_drop_uniform _ hgl x]
  have hxg : x < (mat[y].map packT).length := by
    rw [List.length_map, hw _ hrowmem]; exact hx
  rw [List.drop_eq_getElem_cons hxg, List.flatten_cons, List.append_assoc]
  have hxrow : x < mat[y].length := by
    rw [hw _ hrowmem]; exact hx
  have hgx : (mat[y].map packT)[x] = packT (mat[y][x]) := by simp
  rw [hgx]
  have hlen4 : (packT (mat[y][x])).length = 4 := by
    exact hlen _ hrowmem _ (List.getElem_mem _)
  rw [List.take_append_of_le_length (by rw [hlen4]),
      List.take_of_length_le (by rw [hlen4])]
  congr 1
  unfold pixAt
  rw [List.getElem?_eq_getElem hy, Option.getD_some,
      List.getElem?_eq_getElem hxrow, Option.getD_some]

theorem pixAt_astype (m : Mat) (y x : Nat) :
    pixAt (astypeU8 m) y x = (pixAt m y x).map (· % 256) := by
  unfold pixAt astypeU8
  rw [List.getElem?_map]
  cases hy : m[y]? with
  | none => simp
  | some row =>
    simp only [Option.map_some', Option.getD_some]
    rw [List.getElem?_map]
    cases hx : row[x]? with
    | none => simp
    | some p => simp

theorem pixAt_hmirror (m : Mat) (w y x : Nat)
    (hw : ∀ row ∈ m, row.length = w) (hy : y < m.length) (hx : x < w) :
    pixAt (hmirror m) y x = pixAt m y (w - 1 - x) := by
  unfold pixAt hmirror
  rw [List.getElem?_map, List.getElem?_eq_getElem hy]
  simp only [Option.map_some', Option.getD_some]
  have hrow : m[y].length = w := hw _ (List.getElem_mem hy)
  rw [List.getElem?_reverse (by rw [hrow]; exact hx), hrow]

theorem pixAt_rot180 (m : Mat) (h w y x : Nat)
    (hh : m.length = h) (hw : ∀ row ∈ m, row.length = w)
    (hy : y < h) (hx : x < w) :
    pixAt (rotate180 m) y x = pixAt m (h - 1 - y) (w - 1 - x) := by
  unfold pixAt rotate180
  have hy' : y < (m.map List.reverse).length := by
    rw [List.length_map, hh]; exact hy
  rw [List.getElem?_reverse hy']
  have hy'lt : h - 1 - y < m.length := by rw [hh]; omega
  rw [List.length_map, hh, List.getElem?_map, List.getElem?_eq_getElem hy'lt]
  simp only [Option.map_some', Option.getD_some]
  have hrow : m[h - 1 - y].length = w := hw _ (List.getElem_mem hy'lt)
  rw [List.getElem?_reverse (by rw [hrow]; exact hx), hrow]

theorem pixAt_eq_getElem (m : Mat) (y x : Nat) (hy : y < m.length)
    (hx : x < m[y].length) : pixAt m y x = m[y][x] := by
  unfold pixAt
  rw [List.getElem?_eq_getElem hy, Option.getD_some,
      List.getElem?_eq_getElem hx, Option.getD_some]

theorem WF_rowRev {mat : Mat} {h w c : Nat} (hWF : WF mat h w c) :
    WF (rowRev mat) h w c := by
  obtain ⟨hh, hr⟩ := hWF
  exact ⟨by simpa [rowRev] using hh, fun row hrow => hr row (List.mem_reverse.mp hrow)⟩

theorem WF_hmirror {mat : Mat} {h w c : Nat} (hWF : WF mat h w c) :
    WF (hmirror mat) h w c := by
  obtain ⟨hh, hr⟩ := hWF
  refine ⟨by simpa [hmirror] using hh, fun row hrow => ?_⟩
  obtain ⟨r, hrmem, rfl⟩ := List.mem_map.mp hrow
  obtain ⟨hlen, hp⟩ := hr r hrmem
  exact ⟨by simpa using hlen, fun p hpm => hp p (List.mem_reverse.mp hpm)⟩

theorem WF_rot180 {mat : Mat} {h w c : Nat} (hWF : WF mat h w c) :
    WF (rotate180 mat) h w c := by
  have heq : rotate180 mat = rowRev (hmirror mat) := rfl
  rw [heq]
  exact WF_rowRev (WF_hmirror hWF)

theorem WF_astype {mat : Mat} {h w c : Nat} (hWF : WF mat h w c) :
    WF (astypeU8 mat) h w c := by
  obtain ⟨hh, hr⟩ := hWF
  refine ⟨by simpa [astypeU8] using hh, fun row hrow => ?_⟩
  obtain ⟨r, hrmem, rfl⟩ := List.mem_map.mp hrow
  obtain ⟨hlen, hp⟩ := hr r hrmem
  refine ⟨by simpa using hlen, fun p hpm => ?_⟩
  obtain ⟨q, hqmem, rfl⟩ := List.mem_map.mp hpm
  obtain ⟨hql, hqv⟩ := hp q hqmem
  refine ⟨by simpa using hql, fun v hv => ?_⟩
  obtain ⟨u, _, rfl⟩ := List.mem_map.mp hv
  exact Nat.mod_lt u (by norm_num)

theorem WF_pix {mat : Mat} {h w c : Nat} (hWF : WF mat h w c)
    {y x : Nat} (hy : y < h) (hx : x < w) :
    (pixAt mat y x).length = c ∧ ∀ v ∈ pixAt mat y x, v < 256 := by
  obtain ⟨hh, hr⟩ := hWF
  have hy' : y < mat.length := by rw [hh]; exact hy
  have hrowmem := List.getElem_mem hy'
  obtain ⟨hlen, hp⟩ := hr _ hrowmem
  have hx' : x < mat[y].length := by rw [hlen]; exact hx
  rw [pixAt_eq_getElem mat y x hy' hx']
  exact hp _ (List.getElem_mem hx')

theorem shapeC_of_pos {mat : Mat} {h w c : Nat} (hWF : WF mat h w c)
    (hh : 0 < h) (hw : 0 < w) : shapeC mat = c := by
  obtain ⟨hlen, hr⟩ := hWF
  match mat, hlen with
  | row :: rows, hlen =>
    obtain ⟨hrw, hp⟩ := hr row (List.mem_cons_self row rows)
    match row, hrw, hw with
    | p :: ps, hrw, _ =>
      have := hp p (List.mem_cons_self p ps)
      simpa [shapeC] using this.1
  | [], hlen => simp at hlen; omega

theorem packLogoT_mod (p : List Nat) (hlen : 3 ≤ p.length) (hv : ∀ v ∈ p, v < 256) :
    packLogoT (p.map (· % 256)) =
      [p.getD 0 0, p.getD 1 0, p.getD 2 0, 255] := by
  match p, hlen with
  | a :: b :: d :: rest, _ =>
    have ha := hv a (by simp)
    have hb := hv b (by simp)
    have hd := hv d (by simp)
    simp [packLogoT, Nat.mod_eq_of_lt, ha, hb, hd, Nat.mod_eq_of_lt ha,
      Nat.mod_eq_of_lt hb, Nat.mod_eq_of_lt hd]

theorem packOdT_mod (c : Nat) (p : List Nat) (hlen : p.length = c)
    (hc : c = 3 ∨ c = 4) (hv : ∀ v ∈ p, v < 256) :
    packOdT c (p.map (· % 256)) =
      [p.getD 0 0, p.getD 1 0, p.getD 2 0, if c = 4 then p.getD 3 0 else 255] := by
  rcases hc with hc | hc
  · subst hc
    match p, hlen with
    | [a, b, d], _ =>
      have ha := hv a (by simp)
      have hb := hv b (by simp)
      have hd := hv d (by simp)
      simp [packOdT, Nat.mod_eq_of_lt ha, Nat.mod_eq_of_lt hb, Nat.mod_eq_of_lt hd]
  · subst hc
    match p, hlen with
    | [a, b, d, e], _ =>
      have ha := hv a (by simp)
      have hb := hv b (by simp)
      have hd := hv d (by simp)
      have he := hv e (by simp)
      simp [packOdT, Nat.mod_eq_of_lt ha, Nat.mod_eq_of_lt hb,
        Nat.mod_eq_of_lt hd, Nat.mod_eq_of_lt he]

/-- `rowRev ∘ rotate180` collapses to a horizontal mirror. -/
theorem rowRev_rot180 (mat : Mat) : rowRev (rotate180 mat) = hmirror mat := by
  simp [rowRev, rotate180, hmirror]

theorem generate_logo_eq {mat : Mat} {h w c : Nat} (hWF : WF mat h w c)
    (hc : c = 3 ∨ c = 4) :
    generate_logo mat = some
      (((astypeU8 (hmirror mat)).map
        (fun row => (row.map packLogoT).flatten)).flatten) := by
  unfold generate_logo
  rw [rowRev_rot180]
  apply packRows_eq
  intro row hrow p hp
  obtain ⟨_, hr⟩ := WF_astype (WF_hmirror hWF)
  obtain ⟨_, hpix⟩ := hr row hrow
  obtain ⟨hlen, _⟩ := hpix p hp
  exact packLogoPixel_eq p (by omega)

theorem generate_od_eq {mat : Mat} {h w c : Nat} (hWF : WF mat h w c)
    (hc : c = 3 ∨ c = 4) :
    generate_overlay_display mat = some
      (((astypeU8 (rotate180 mat)).map
        (fun row => (row.map (packOdT (shapeC (astypeU8 (rotate180 mat))))).flatten)).flatten) := by
  unfold generate_overlay_display
  apply packRows_eq
  intro row hrow p hp
  have hWF' : WF (astypeU8 (rotate180 mat)) h w c := WF_astype (WF_rot180 hWF)
  have hc' : shapeC (astypeU8 (rotate180 mat)) = c := by
    apply shapeC_of_pos hWF'
    · rw [← hWF'.1]
      exact List.length_pos.mpr (List.ne_nil_of_mem hrow)
    · rw [← (hWF'.2 row hrow).1]
      exact List.length_pos.mpr (List.ne_nil_of_mem hp)
  have hlen : p.length = c := ((hWF'.2 row hrow).2 p hp).1
  rw [hc']
  exact packOdPixel_eq c p (fun h4 => by omega) (fun h3 => by
    rcases hc with hc | hc <;> omega)

theorem packLogoT_len (p : List Nat) (h : 3 ≤ p.length) : (packLogoT p).length = 4 := by
  simp [packLogoT]
  omega

theorem packOdT_len (c : Nat) (p : List Nat) (hlen : p.length = c)
    (hc : c = 3 ∨ c = 4) : (packOdT c p).length = 4 := by
  rcases hc with hc | hc <;> subst hc <;> simp [packOdT] <;> omega

theorem packLogoT_getD3 (q : List Nat) (h : 3 ≤ q.length) :
    (packLogoT q).getD 3 0 = 255 := by
  match q, h with
  | a :: b :: d :: rest, _ => simp [packLogoT]

theorem packOdT3_getD3 (q : List Nat) (h : 3 ≤ q.length) :
    (packOdT 3 q).getD 3 0 = 255 := by
  match q, h with
  | a :: b :: d :: rest, _ => simp [packOdT]

theorem getD_pixelGroup_three (bs : List Nat) (w y x : Nat) :
    bs.getD (4 * (y * w + x) + 3) 0 = (pixelGroup bs w y x).getD 3 0 := by
  unfold pixelGroup
  rw [List.getD_eq_getElem?_getD, List.getD_eq_getElem?_getD,
      List.getElem?_take, if_pos (by norm_num : (3 : Nat) < 4), List.getElem?_drop]

/-- C7: `_generate_logo` applies `cv2.rotate(·, ROTATE_180)` and then a
second, independent row reversal `mat[::-1]`; the net pixel-grid effect of
that composition is exactly a horizontal mirror (columns flipped, rows
restored), and the packed output bytes are bit-for-bit the packing of the
mirrored image. -/
theorem logo_rotation_net_horizontal_mirror (mat : Mat) :
    rowRev (rotate180 mat) = hmirror mat ∧
    generate_logo mat = packRows packLogoPixel (astypeU8 (hmirror mat)) := by
  refine ⟨rowRev_rot180 mat, ?_⟩
  unfold generate_logo
  rw [rowRev_rot180]

/-- C3 counterexample: a 1×1 Logo input with 4 channels and alpha 7 is
packed with alpha byte 255, so the Logo kind does not preserve the source
alpha, contrary to the claim. -/
theorem logo_alpha_not_preserved :
    generate_logo [[[1, 2, 3, 7]]] = some [1, 2, 3, 255] ∧ (255 : Nat) ≠ 7 := by
  exact ⟨rfl, by decide⟩

/-- C3 amended: every pixel is packed as 4 bytes in B,G,R,A order; for
Overlay/Display the alpha byte is the source pixel's alpha when the source
has 4 channels and 255 when it has 3, but for Logo the alpha byte is
always 255 (the source alpha of a 4-channel logo is discarded). The pixel
written at position (y,x) is the source pixel (h-1-y, w-1-x) for
Overlay/Display (180° rotation) and (y, w-1-x) for Logo. -/
theorem pixel_pack_bgra (mat : Mat) (h w c : Nat) (hWF : WF mat h w c)
    (hc : c = 3 ∨ c = 4) (y x : Nat) (hy : y < h) (hx : x < w) :
    (∃ bs, generate_overlay_display mat = some bs ∧
        pixelGroup bs w y x =
          [(pixAt mat (h - 1 - y) (w - 1 - x)).getD 0 0,
           (pixAt mat (h - 1 - y) (w - 1 - x)).getD 1 0,
           (pixAt mat (h - 1 - y) (w - 1 - x)).getD 2 0,
           if c = 4 then (pixAt mat (h - 1 - y) (w - 1 - x)).getD 3 0 else 255]) ∧
    (∃ bs, generate_logo mat = some bs ∧
        pixelGroup bs w y x =
          [(pixAt mat y (w - 1 - x)).getD 0 0,
           (pixAt mat y (w - 1 - x)).getD 1 0,
           (pixAt mat y (w - 1 - x)).getD 2 0, 255]) := by
  have hwrows : ∀ row ∈ mat, row.length = w := fun row hrow => (hWF.2 row hrow).1
  constructor
  · have hWF' : WF (astypeU8 (rotate180 mat)) h w c := WF_astype (WF_rot180 hWF)
    have hcshape : shapeC (astypeU8 (rotate180 mat)) = c :=
      shapeC_of_pos hWF' (by omega) (by omega)
    refine ⟨_, generate_od_eq hWF hc, ?_⟩
    rw [hcshape]
    rw [pixelGroup_of_packed (packOdT c) _ w
      (fun row hrow => (hWF'.2 row hrow).1)
      (fun row hrow p hp => packOdT_len c p ((hWF'.2 row hrow).2 p hp).1 hc)
      y x (by rw [hWF'.1]; exact hy) hx]
    rw [pixAt_astype, pixAt_rot180 mat h w y x hWF.1 hwrows hy hx]
    have hpix := WF_pix hWF (show h - 1 - y < h by omega) (show w - 1 - x < w by omega)
    exact packOdT_mod c _ hpix.1 hc hpix.2
  · have hWF'' : WF (astypeU8 (hmirror mat)) h w c := WF_astype (WF_hmirror hWF)
    refine ⟨_, generate_logo_eq hWF hc, ?_⟩
    rw [pixelGroup_of_packed packLogoT _ w
      (fun row hrow => (hWF''.2 row hrow).1)
      (fun row hrow p hp => packLogoT_len p (by
        have := ((hWF''.2 row hrow).2 p hp).1; omega))
      y x (by rw [hWF''.1]; exact hy) hx]
    rw [pixAt_astype, pixAt_hmirror mat w y x hwrows (by rw [hWF.1]; exact hy) hx]
    have hpix := WF_pix hWF hy (show w - 1 - x < w by omega)
    exact packLogoT_mod _ (by omega) hpix.2

/-- Witness for `pixel_pack_bgra` at a concrete 1×2 4-channel image. -/
theorem pixel_pack_bgra_witness :
    (∃ bs, generate_overlay_display [[[9, 8, 7, 6], [5, 4, 3, 2]]] = some bs ∧
        pixelGroup bs 2 0 0 = [5, 4, 3, 2]) ∧
    (∃ bs, generate_logo [[[9, 8, 7, 6], [5, 4, 3, 2]]] = some bs ∧
        pixelGroup bs 2 0 0 = [5, 4, 3, 255]) := by
  exact pixel_pack_bgra [[[9, 8, 7, 6], [5, 4, 3, 2]]] 1 2 4
    (by decide) (Or.inr rfl) 0 0 (by decide) (by decide)

/-- C8: for a well-formed image with 3 or 4 channels, both encoders
produce exactly `w * h * 4` bytes (no header), and every 4th byte (the
alpha position) is 255 when the source has 3 channels (for Logo, in fact,
always). -/
theorem packed_output_size_alpha (mat : Mat) (h w c : Nat) (hWF : WF mat h w c)
    (hc : c = 3 ∨ c = 4) :
    (∃ bs, generate_logo mat = some bs ∧ bs.length = w * h * 4 ∧
        ∀ i, 4 * i + 3 < bs.length → bs.getD (4 * i + 3) 0 = 255) ∧
    (∃ bs, generate_overlay_display mat = some bs ∧ bs.length = w * h * 4 ∧
        (c = 3 → ∀ i, 4 * i + 3 < bs.length → bs.getD (4 * i + 3) 0 = 255)) := by
  constructor
  · have hWF'' : WF (astypeU8 (hmirror mat)) h w c := WF_astype (WF_hmirror hWF)
    have hwrows'' : ∀ row ∈ astypeU8 (hmirror mat), row.length = w :=
      fun row hrow => (hWF''.2 row hrow).1
    have hglen : ∀ row ∈ astypeU8 (hmirror mat), ∀ p ∈ row, (packLogoT p).length = 4 := by
      intro row hrow p hp
      exact packLogoT_len p (by have := ((hWF''.2 row hrow).2 p hp).1; omega)
    refine ⟨_, generate_logo_eq hWF hc, ?_, ?_⟩
    · rw [flatten_length_uniform (L := w * 4)]
      · rw [List.length_map, hWF''.1]; ring
      · intro rb hrb
        obtain ⟨row, hrow, rfl⟩ := List.mem_map.mp hrb
        rw [flatten_length_uniform (L := 4)]
        · rw [List.length_map, hwrows'' row hrow]
        · intro g hg
          obtain ⟨p, hp, rfl⟩ := List.mem_map.mp hg
          exact hglen row hrow p hp
    · intro i hi
      have hlen : (((astypeU8 (hmirror mat)).map
          (fun row => (row.map packLogoT).flatten)).flatten).length = w * h * 4 := by
        rw [flatten_length_uniform (L := w * 4)]
        · rw [List.length_map, hWF''.1]; ring
        · intro rb hrb
          obtain ⟨row, hrow, rfl⟩ := List.mem_map.mp hrb
          rw [flatten_length_uniform (L := 4)]
          · rw [List.length_map, hwrows'' row hrow]
          · intro g hg
            obtain ⟨p, hp, rfl⟩ := List.mem_map.mp hg
            exact hglen row hrow p hp
      rw [hlen] at hi
      have hwh : 0 < w * h := by omega
      have hwpos : 0 < w := by
        rcases Nat.eq_zero_or_pos w with h0 | h0
        · subst h0; simp at hwh
        · exact h0
      have hhpos : 0 < h := by
        rcases Nat.eq_zero_or_pos h with h0 | h0
        · rw [h0] at hwh; simp at hwh
        · exact h0
      have hiwh : i < w * h := by omega
      have hx : i % w < w := Nat.mod_lt i hwpos
      have hy : i / w < h := by
        rw [Nat.div_lt_iff_lt_mul hwpos]
        calc i < w * h := hiwh
          _ = h * w := by ring
      have hdecomp : i = (i / w) * w + i % w := by
        conv_lhs => rw [← Nat.div_add_mod i w]
        ring
      rw [hdecomp, getD_pixelGroup_three,
          pixelGroup_of_packed packLogoT _ w hwrows'' hglen (i / w) (i % w)
            (by rw [hWF''.1]; exact hy) hx]
      apply packLogoT_getD3
      have := (WF_pix hWF'' hy hx).1
      omega
  · have hWF' : WF (astypeU8 (rotate180 mat)) h w c := WF_astype (WF_rot180 hWF)
    have hwrows' : ∀ row ∈ astypeU8 (rotate180 mat), row.length = w :=
      fun row hrow => (hWF'.2 row hrow).1
    have hglen : ∀ row ∈ astypeU8 (rotate180 mat), ∀ p ∈ row,
        (packOdT (shapeC (astypeU8 (rotate180 mat))) p).length = 4 := by
      intro row hrow p hp
      have hcs : shapeC (astypeU8 (rotate180 mat)) = c := by
        apply shapeC_of_pos hWF'
        · rw [← hWF'.1]
          exact List.length_pos.mpr (List.ne_nil_of_mem hrow)
        · rw [← hwrows' row hrow]
          exact List.length_pos.mpr (List.ne_nil_of_mem hp)
      rw [hcs]
      exact packOdT_len c p ((hWF'.2 row hrow).2 p hp).1 hc
    have hlen : (((astypeU8 (rotate180 mat)).map
        (fun row => (row.map (packOdT (shapeC (astypeU8 (rotate180 mat))))).flatten)).flatten).length
        = w * h * 4 := by
      rw [flatten_length_uniform (L := w * 4)]
      · rw [List.length_map, hWF'.1]; ring
      · intro rb hrb
        obtain ⟨row, hrow, rfl⟩ := List.mem_map.mp hrb
        rw [flatten_length_uniform (L := 4)]
        · rw [List.length_map, hwrows' row hrow]
        · intro g hg
          obtain ⟨p, hp, rfl⟩ := List.mem_map.mp hg
          exact hglen row hrow p hp
    refine ⟨_, generate_od_eq hWF hc, hlen, ?_⟩
    intro hc3 i hi
    rw [hlen] at hi
    have hwh : 0 < w * h := by omega
    have hwpos : 0 < w := by
      rcases Nat.eq_zero_or_pos w with h0 | h0
      · subst h0; simp at hwh
      · exact h0
    have hhpos : 0 < h := by
      rcases Nat.eq_zero_or_pos h with h0 | h0
      · rw [h0] at hwh; simp at hwh
      · exact h0
    have hiwh : i < w * h := by omega
    have hx : i % w < w := Nat.mod_lt i hwpos
    have hy : i / w < h := by
      rw [Nat.div_lt_iff_lt_mul hwpos]
      calc i < w * h := hiwh
        _ = h * w := by ring
    have hdecomp : i = (i / w) * w + i % w := by
      conv_lhs => rw [← Nat.div_add_mod i w]
      ring
    have hcs : shapeC (astypeU8 (rotate180 mat)) = c := shapeC_of_pos hWF' hhpos hwpos
    rw [hdecomp, getD_pixelGroup_three,
        pixelGroup_of_packed _ _ w hwrows' hglen (i / w) (i % w)
          (by rw [hWF'.1]; exact hy) hx]
    rw [hcs, hc3]
    apply packOdT3_getD3
    have := (WF_pix hWF' hy hx).1
    omega

/-- Witness for `packed_output_size_alpha` at a concrete 2×1 3-channel image. -/
theorem packed_output_size_alpha_witness :
    (∃ bs, generate_logo [[[1, 2, 3]], [[4, 5, 6]]] = some bs ∧ bs.length = 1 * 2 * 4 ∧
        ∀ i, 4 * i + 3 < bs.length → bs.getD (4 * i + 3) 0 = 255) ∧
    (∃ bs, generate_overlay_display [[[1, 2, 3]], [[4, 5, 6]]] = some bs ∧
        bs.length = 1 * 2 * 4 ∧
        (3 = 3 → ∀ i, 4 * i + 3 < bs.length → bs.getD (4 * i + 3) 0 = 255)) := by
  exact packed_output_size_alpha [[[1, 2, 3]], [[4, 5, 6]]] 2 1 3
    (by decide) (Or.inl rfl)

end ExportService

namespace ExportWorker

/-!
Control-flow skeleton of `ExportWorker.run` with respect to cancellation
and failure. The worker's only terminal signals are
`export_completed.emit(msg)` and `export_failed.emit(msg)`; there is no
third signal. The cooperative flag `self._cancelled` is polled once
before each task (`run`, line 146) and once per row / per frame inside
each task body (`_generate_logo`/`_generate_overlay_display`/
`_generate_video`); an in-task poll raises
`InterruptedError("导出已取消")`, which `run` catches as a generic
exception. Poll points are numbered globally; `flag t` is the value of
`self._cancelled` at poll point `t`. `os.makedirs` and the best-effort
epconfig manifest are modelled as succeeding (they do not affect the
terminal signal on the paths claimed about).
-/

/-- The two terminal signals of `ExportWorker.run`. -/
inductive Outcome where
  | completed (msg : String)
  | failed (msg : String)
deriving DecidableEq

/-- One export task as the cancellation logic sees it: its wire name
(`export_type.value`), the number of in-task poll points its body passes
(rows for image tasks, frames for video tasks), and whether the body
raises a non-cancellation exception after its polls. -/
structure RunTask where
  kind : String
  polls : Nat
  failMsg : Option String
deriving DecidableEq

/-- Result of one task body under a flag history, with the next global
poll counter on success. -/
inductive TaskResult where
  | ok (t : Nat)
  | cancelled
  | raised (m : String)
deriving DecidableEq

/-- `_execute_task`: the body checks `self._cancelled` before each unit of
work and raises `InterruptedError` at the first poll that sees it set;
otherwise a failing body raises its own exception. -/
def execTask (flag : Nat → Bool) (task : RunTask) (t : Nat) : TaskResult :=
  match (List.range task.polls).find? (fun j => flag (t + j)) with
  | some _ => .cancelled
  | none =>
    match task.failMsg with
    | some m => .raised m
    | none => .ok (t + task.polls)

/-- The in-task failure message `run` emits:
`f"导出 {task.export_type.value} 失败: {str(e)}"`. -/
def taskFailMsg (kind e : String) : String := "导出 " ++ kind ++ " 失败: " ++ e

/-- The task loop of `ExportWorker.run` (lines 144-164): before each task
the flag is checked and, if set, `export_failed.emit("导出已取消")`;
a task exception emits `export_failed` with the task's kind; after the
loop `export_completed` is emitted with the completed count. -/
def runLoop (flag : Nat → Bool) (dir : String) :
    List RunTask → Nat → Nat → Outcome × Nat
  | [], _, comp =>
    (.completed ("成功导出 " ++ toString comp ++ " 个文件到 " ++ dir), comp)
  | task :: rest, t, comp =>
    if flag t then (.failed "导出已取消", comp)
    else
      match execTask flag task (t + 1) with
      | .ok t' => runLoop flag dir rest t' (comp + 1)
      | .cancelled => (.failed (taskFailMsg task.kind "导出已取消"), comp)
      | .raised m => (.failed (taskFailMsg task.kind m), comp)

/-- `ExportWorker.run`: empty task lists complete immediately; otherwise
the task loop runs from poll point 0. -/
def runWorker (flag : Nat → Bool) (dir : String) (tasks : List RunTask) :
    Outcome × Nat :=
  if tasks.length = 0 then (.completed "没有需要导出的任务", 0)
  else runLoop flag dir tasks 0 0

/-- Total number of poll points a fully-successful run passes: one task
boundary plus the in-task polls, per task. -/
def totalPolls (tasks : List RunTask) : Nat :=
  (tasks.map (fun task => 1 + task.polls)).sum

/-- C1 counterexample: with the cancellation flag set before the first
task boundary, the batch terminates via `export_failed.emit("导出已取消")`
— the `Failed` outcome channel — because `ExportWorker` has no distinct
`Cancelled` terminal signal. -/
theorem cancel_surfaced_as_failed_counterexample :
    runWorker (fun _ => true) "out" [⟨"logo", 256, none⟩]
      = (Outcome.failed "导出已取消", 0) := by
  rfl

/-- C1 amended (loop-level): if the cooperative flag becomes set (at
threshold poll `t0`) within the polls of an otherwise-successful task
list, the loop stops and emits `export_failed` with `导出已取消` (task
boundary) or `导出 <kind> 失败: 导出已取消` (in-task poll). -/
theorem runLoop_cancel_failed (dir : String) (t0 : Nat) :
    ∀ (tasks : List RunTask) (t comp : Nat),
    (∀ task ∈ tasks, task.failMsg = none) →
    t ≤ t0 → t0 < t + totalPolls tasks →
    ∃ m, (runLoop (fun u => decide (t0 ≤ u)) dir tasks t comp).1 = .failed m ∧
      (m = "导出已取消" ∨
        ∃ task ∈ tasks, m = taskFailMsg task.kind "导出已取消") := by
  intro tasks
  induction tasks with
  | nil =>
    intro t comp _ hle hlt
    simp [totalPolls] at hlt
    omega
  | cons task rest ih =>
    intro t comp hok hle hlt
    by_cases hb : t0 ≤ t
    · refine ⟨"导出已取消", ?_, Or.inl rfl⟩
      simp [runLoop, hb]
    · have hflag : (decide (t0 ≤ t)) = false := by simp [hb]
      by_cases hin : t0 ≤ t + task.polls
      · -- the flag is observed at an in-task poll of this task
        have hfind : ((List.range task.polls).find?
            (fun j => decide (t0 ≤ t + 1 + j))).isSome = true := by
          cases hf : (List.range task.polls).find?
              (fun j => decide (t0 ≤ t + 1 + j)) with
          | some j => rfl
          | none =>
            have hall := List.find?_eq_none.mp hf (t0 - (t + 1))
              (List.mem_range.mpr (by omega))
            simp at hall
            omega
        obtain ⟨j, hj⟩ := Option.isSome_iff_exists.mp hfind
        refine ⟨taskFailMsg task.kind "导出已取消", ?_,
          Or.inr ⟨task, List.mem_cons_self task rest, rfl⟩⟩
        simp [runLoop, hflag, execTask, hj]
      · -- this task's polls all precede `t0`; the task succeeds
        have hfind : (List.range task.polls).find?
            (fun j => decide (t0 ≤ t + 1 + j)) = none := by
          apply List.find?_eq_none.mpr
          intro j hjmem
          have := List.mem_range.mp hjmem
          simp
          omega
        have hnone : task.failMsg = none := hok task (List.mem_cons_self task rest)
        have htot : totalPolls (task :: rest) = 1 + task.polls + totalPolls rest := by
          simp [totalPolls]
        obtain ⟨m, hres, hm⟩ := ih (t + 1 + task.polls) (comp + 1)
          (fun q hq => hok q (List.mem_cons_of_mem task hq))
          (by omega) (by omega)
        refine ⟨m, ?_, ?_⟩
        · simpa [runLoop, hflag, execTask, hfind, hnone,
            show t + 1 + task.polls = t + task.polls + 1 by omega] using hres
        · rcases hm with hm | ⟨q, hq, hm⟩
          · exact Or.inl hm
          · exact Or.inr ⟨q, List.mem_cons_of_mem task hq, hm⟩

/-- C1 amended: for every batch of otherwise-successful tasks and every
cancellation threshold observed within the run's poll points, the batch
terminates with the `export_failed` signal carrying a cancellation
message — cancellation is surfaced to the caller through the `Failed`
outcome channel, not through a distinct `Cancelled` outcome (which does
not exist in the worker). -/
theorem run_cancel_surfaced_as_failed (dir : String) (tasks : List RunTask)
    (t0 : Nat) (hok : ∀ task ∈ tasks, task.failMsg = none)
    (hobs : t0 < totalPolls tasks) :
    ∃ m, (runWorker (fun u => decide (t0 ≤ u)) dir tasks).1 = .failed m ∧
      (m = "导出已取消" ∨
        ∃ task ∈ tasks, m = taskFailMsg task.kind "导出已取消") := by
  have hne : tasks.length ≠ 0 := by
    intro h0
    rw [List.length_eq_zero.mp h0] at hobs
    simp [totalPolls] at hobs
  unfold runWorker
  rw [if_neg hne]
  exact runLoop_cancel_failed dir t0 tasks 0 0 hok (Nat.zero_le t0) (by omega)

/-- Witness for `run_cancel_surfaced_as_failed`: a one-task batch whose
flag is raised after the boundary poll, taken at the first in-task poll. -/
theorem run_cancel_surfaced_as_failed_witness :
    ∃ m, (runWorker (fun u => decide (1 ≤ u)) "out" [⟨"logo", 2, none⟩]).1 = .failed m ∧
      (m = "导出已取消" ∨
        ∃ task ∈ [(⟨"logo", 2, none⟩ : RunTask)],
          m = taskFailMsg task.kind "导出已取消") := by
  exact run_cancel_surfaced_as_failed "out" [⟨"logo", 2, none⟩] 1
    (by decide) (by decide)

/-!
Progress percentages emitted during one video task
(`_execute_task` + `_generate_video`), assuming every frame read
succeeds. Python float arithmetic is modelled by exact rationals with
`int(·)` as the floor (all quantities involved are non-negative); the
concrete instances below use values that are exact in binary floating
point, so the float and rational computations agree on them.
-/

/-- `base_progress = int((i / total_tasks) * 100)` (run, line 150). -/
def taskBase (i totalTasks : Nat) : Int :=
  ⌊(i : ℚ) / (totalTasks : ℚ) * 100⌋

/-- A periodic frame update (`_generate_video`, lines 263-269):
`base_progress + int((frame_index / total_frames) * (100 / total_tasks))`. -/
def frameUpdate (base : Int) (fi totalFrames totalTasks : Nat) : Int :=
  base + ⌊(fi : ℚ) / (totalFrames : ℚ) * (100 / (totalTasks : ℚ))⌋

/-- All periodic frame updates of one video task, emitted at
`frame_index % 10 == 0` for `frame_index in range(total_frames)`. -/
def frameUpdates (i totalTasks totalFrames : Nat) : List Int :=
  ((List.range totalFrames).filter (fun fi => fi % 10 = 0)).map
    (fun fi => frameUpdate (taskBase i totalTasks) fi totalFrames totalTasks)

/-- The encoding-phase checkpoint (`_generate_video`, line 273):
`base_progress + int(80 / total_tasks)`. -/
def encodeCheckpoint (i totalTasks : Nat) : Int :=
  taskBase i totalTasks + ⌊(80 : ℚ) / (totalTasks : ℚ)⌋

/-- The full sequence of progress percentages emitted while task `i` of
`totalTasks` (a video task of `totalFrames` frames) executes: the
per-task baseline, the periodic per-10-frames updates, then the
encoding-phase checkpoint. -/
def videoProgress (i totalTasks totalFrames : Nat) : List Int :=
  (taskBase i totalTasks :: frameUpdates i totalTasks totalFrames)
    ++ [encodeCheckpoint i totalTasks]

/-- C2 counterexample: for a single-task batch over 32 frames the
emissions are 0, 0, 31, 62, 93, 80 — the encoding checkpoint (80) drops
below the last frame update (93), so the emitted sequence is not
monotonically non-decreasing. -/
theorem video_progress_not_monotone :
    videoProgress 0 1 32 = [0, 0, 31, 62, 93, 80] ∧
      ¬ List.Chain' (· ≤ ·) (videoProgress 0 1 32) := by
  have hfilter : (List.range 32).filter (fun fi => fi % 10 = 0) = [0, 10, 20, 30] := by
    decide
  have hbase : taskBase 0 1 = 0 := by unfold taskBase; norm_num
  have hcp : encodeCheckpoint 0 1 = 80 := by unfold encodeCheckpoint taskBase; norm_num
  have hf0 : frameUpdate (taskBase 0 1) 0 32 1 = 0 := by
    unfold frameUpdate taskBase; norm_num
  have hf10 : frameUpdate (taskBase 0 1) 10 32 1 = 31 := by
    unfold frameUpdate taskBase; norm_num
  have hf20 : frameUpdate (taskBase 0 1) 20 32 1 = 62 := by
    unfold frameUpdate taskBase; norm_num
  have hf30 : frameUpdate (taskBase 0 1) 30 32 1 = 93 := by
    unfold frameUpdate taskBase; norm_num
  have heq : videoProgress 0 1 32 = [0, 0, 31, 62, 93, 80] := by
    unfold videoProgress frameUpdates
    rw [hfilter]
    simp only [List.map_cons, List.map_nil]
    rw [hf0, hf10, hf20, hf30, hbase, hcp]
    rfl
  refine ⟨heq, ?_⟩
  rw [heq]
  intro hchain
  simp [List.chain'_cons] at hchain

/-- C2 amended: within one video task the baseline and the periodic
per-10-frames updates are monotonically non-decreasing (and the encoding
checkpoint is at least the baseline), but the checkpoint may drop below a
preceding frame update, so the full sequence need not be monotone. -/
theorem video_progress_prefix_monotone (i totalTasks totalFrames : Nat)
    (htt : 0 < totalTasks) (htf : 0 < totalFrames) :
    List.Chain' (· ≤ ·)
      (taskBase i totalTasks :: frameUpdates i totalTasks totalFrames) ∧
    taskBase i totalTasks ≤ encodeCheckpoint i totalTasks := by
  have httq : (0 : ℚ) < (totalTasks : ℚ) := by exact_mod_cast htt
  have htfq : (0 : ℚ) < (totalFrames : ℚ) := by exact_mod_cast htf
  constructor
  · rw [List.chain'_iff_pairwise, List.pairwise_cons]
    constructor
    · intro b hb
      unfold frameUpdates at hb
      obtain ⟨fi, _, rfl⟩ := List.mem_map.mp hb
      unfold frameUpdate
      have : (0 : Int) ≤ ⌊(fi : ℚ) / (totalFrames : ℚ) * (100 / (totalTasks : ℚ))⌋ := by
        apply Int.floor_nonneg.mpr
        positivity
      omega
    · unfold frameUpdates
      apply List.Pairwise.map
        (S := fun a b : Int => a ≤ b) (R := fun a b : Nat => a < b)
      · intro a b hab
        unfold frameUpdate
        have harg : (a : ℚ) / (totalFrames : ℚ) * (100 / (totalTasks : ℚ))
            ≤ (b : ℚ) / (totalFrames : ℚ) * (100 / (totalTasks : ℚ)) := by
          have hcast : (a : ℚ) ≤ (b : ℚ) := by exact_mod_cast Nat.le_of_lt hab
          gcongr
        have := Int.floor_le_floor harg
        omega
      · exact (List.pairwise_lt_range _).filter _
  · unfold encodeCheckpoint
    have : (0 : Int) ≤ ⌊(80 : ℚ) / (totalTasks : ℚ)⌋ := by
      apply Int.floor_nonneg.mpr
      positivity
    omega

/-- Witness for `video_progress_prefix_monotone` on the counterexample
batch shape (one task, 32 frames). -/
theorem video_progress_prefix_monotone_witness :
    List.Chain' (· ≤ ·) (taskBase 0 1 :: frameUpdates 0 1 32) ∧
      taskBase 0 1 ≤ encodeCheckpoint 0 1 :=
  video_progress_prefix_monotone 0 1 32 (by decide) (by decide)

end ExportWorker

namespace LegacyConverter

/-!
Shallow embedding of `src/core/legacy_converter.py`. The filesystem is an
explicit value: a list of directory paths and a list of path/content
pairs, threaded through every function. Paths are component lists
(`os.path.join a b` is `a ++ [b]`). Directory creation is modelled as
always succeeding (OS-level errors such as permission failures are
outside the model; intermediate directories are elided); the fallible
library calls the code wraps in `try/except` — `shutil.copy2`,
`PIL Image.save`, `EPConfig.save_to_file` — fail or succeed according to
an explicit oracle `IOEnv`, matching the code's catch-all handlers that
turn any such exception into a `False` return.
-/

/-- A filesystem path as its components. -/
abbrev FPath := List String

/-- Modelled from the spec: the `EPConfig` schema object (the module
`config.epconfig` is not among the covered sources). The spec describes
it as an opaque serializable record exposing `name`, `description`,
`loop.file`, an operator-style overlay sub-record (operator name, color,
logo path) and `icon`, written to `epconfig.json` by `save_to_file`. -/
structure NewConfig where
  name : String
  description : String
  loopFile : String
  operatorName : String
  color : String
  logo : Option String
  icon : Option String
deriving DecidableEq

/-- Contents of one filesystem file. -/
inductive FileData where
  | text (s : String)
  | bin (bs : List Nat)
  | config (c : NewConfig)
deriving DecidableEq

/-- The filesystem state. `dirs` and `files` are kept in creation order,
which also fixes the directory-listing order `os.listdir` exposes. -/
structure FS where
  dirs : List FPath
  files : List (FPath × FileData)
deriving DecidableEq

/-- `os.path.isdir`. -/
def FS.isDir (fs : FS) (p : FPath) : Bool := fs.dirs.contains p

/-- Content lookup: `some` when `p` is a file. -/
def FS.fileGet (fs : FS) (p : FPath) : Option FileData :=
  (fs.files.find? (fun e => e.1 == p)).map (fun e => e.2)

/-- `os.path.exists`: a directory or a file. -/
def FS.pathExists (fs : FS) (p : FPath) : Bool :=
  fs.isDir p || (fs.fileGet p).isSome

/-- The success path of `os.makedirs(p, exist_ok=True)`: a no-op when the
directory exists, otherwise the directory is created (intermediate
directories elided). The call's uncaught error path — `FileExistsError`
when `p` is occupied by a regular file — is `FS.mkdirE` below. -/
def FS.mkdir (fs : FS) (p : FPath) : FS :=
  if fs.isDir p then fs else { fs with dirs := fs.dirs ++ [p] }

/-- `os.makedirs(p, exist_ok=True)` with its error path: `exist_ok` only
suppresses the error for an existing directory; when `p` exists as a
regular file the call raises `FileExistsError`, and neither
`convert_folder` nor `batch_convert` catches it. -/
def FS.mkdirE (fs : FS) (p : FPath) : Except String FS :=
  if fs.isDir p then .ok fs
  else if (fs.fileGet p).isSome then .error "FileExistsError"
  else .ok { fs with dirs := fs.dirs ++ [p] }

/-- Writing (or overwriting) a file. -/
def FS.write (fs : FS) (p : FPath) (d : FileData) : FS :=
  { fs with files := fs.files.filter (fun e => !(e.1 == p)) ++ [(p, d)] }

/-- The name of `p` when it is a direct child of `root`. -/
def childName? (root p : FPath) : Option String :=
  if p.length = root.length + 1 ∧ p.take root.length = root then p.getLast? else none

/-- `os.listdir root`: names of the direct children, in creation order. -/
def FS.listdir (fs : FS) (root : FPath) : List String :=
  fs.dirs.filterMap (childName? root) ++ fs.files.filterMap (fun e => childName? root e.1)

/-- `LegacyConverter.detect_legacy_folder`: a directory containing both
`epconfig.txt` and `loop.mp4`. -/
def detect_legacy_folder (fs : FS) (folder : FPath) : Bool :=
  fs.isDir folder &&
    fs.pathExists (folder ++ ["epconfig.txt"]) &&
    fs.pathExists (folder ++ ["loop.mp4"])

/-- The parsed legacy configuration. -/
structure LegacyConfig where
  version : Int
  color : String
deriving DecidableEq

/-- The parse-failure / absent-file default `{version: 0, color: "#000000"}`. -/
def defaultConfig : LegacyConfig := ⟨0, "#000000"⟩

/-- Digits of a Python `int(...)` literal (ASCII digits; the exotic
acceptances such as underscores or unicode digits are outside the model). -/
def pyDigits? (ds : List Char) : Option Nat :=
  if ds ≠ [] ∧ ds.all Char.isDigit then
    some (ds.foldl (fun a c => 10 * a + (c.toNat - 48)) 0)
  else none

/-- Python `int(s)` on a whitespace-free token: optional sign, digits;
`none` when `int` raises `ValueError`. -/
def pyInt? (s : String) : Option Int :=
  match s.toList with
  | '-' :: ds => (pyDigits? ds).map (fun n => -(n : Int))
  | '+' :: ds => (pyDigits? ds).map (fun n => (n : Int))
  | ds => (pyDigits? ds).map (fun n => (n : Int))

/-- Tokenizer core: splits a character stream on whitespace runs,
dropping empty tokens; `acc` holds the current token reversed. -/
def splitWsAux : List Char → List Char → List String
  | [], acc => if acc = [] then [] else [String.mk acc.reverse]
  | c :: cs, acc =>
    if c.isWhitespace then
      if acc = [] then splitWsAux cs []
      else String.mk acc.reverse :: splitWsAux cs []
    else splitWsAux cs (c :: acc)

/-- `content = f.read().strip()` followed by `parts = content.split()`:
Python `str.split()` with no separator already ignores leading and
trailing whitespace and drops empty tokens, so the prior `strip()` is a
no-op on the token list; this computes the combination. -/
def legacyTokens (s : String) : List String := splitWsAux s.toList []

/-- Python string slicing `s[n:]` (by code points). -/
def pyDrop (s : String) (n : Nat) : String := String.mk (s.toList.drop n)

/-- A hexadecimal digit (`0-9a-fA-F`). -/
def isHexChar (c : Char) : Bool :=
  c.isDigit || ('a' ≤ c && c ≤ 'f') || ('A' ≤ c && c ≤ 'F')

/-- The token-processing part of `LegacyConverter.parse_legacy_config`
(lines 101-111): token 0 is `int(...)`-parsed as the version; token 1 of
length 8 is stored as `"#" + color_hex[2:]`, any other length as
`"#" + color_hex`. A `ValueError` from `int` aborts the `try` block, so
both fields keep the defaults assigned before it. -/
def parseTokens : List String → LegacyConfig
  | [] => defaultConfig
  | t0 :: rest =>
    match pyInt? t0 with
    | none => defaultConfig
    | some v =>
      match rest with
      | [] => { version := v, color := "#000000" }
      | t1 :: _ =>
        if t1.length = 8 then { version := v, color := "#" ++ pyDrop t1 2 }
        else { version := v, color := "#" ++ t1 }

/-- Parsing one file content: strip, split, process the tokens. -/
def parseLegacyContent (content : String) : LegacyConfig :=
  parseTokens (legacyTokens content)

/-- `LegacyConverter.parse_legacy_config`: absent file (or a directory in
its place, whose open raises and is caught) yields the defaults; binary
content that fails utf-8 decoding likewise degrades to the defaults. -/
def parse_legacy_config (fs : FS) (src : FPath) : LegacyConfig :=
  match fs.fileGet (src ++ ["epconfig.txt"]) with
  | none => defaultConfig
  | some (.text s) => parseLegacyContent s
  | some _ => defaultConfig

/-- The fixed ordered list of common dimensions tried by
`_detect_image_size`. -/
def common_sizes : List (Nat × Nat) :=
  [(256, 256), (512, 512), (128, 128), (512, 128),
   (256, 512), (360, 640), (480, 854), (720, 1280)]

/-- The `for w, h in common_sizes` loop: first entry whose pixel count
matches. -/
def detectFromList : List (Nat × Nat) → Nat → Option (Nat × Nat)
  | [], _ => none
  | (w, h) :: rest, pc => if w * h = pc then some (w, h) else detectFromList rest pc

/-- `LegacyConverter._detect_image_size`: byte count divided by 4, the
common-size list, then the perfect-square fallback
(`int(math.sqrt(pixel_count))`, which agrees with `Nat.sqrt` for all
realistic sizes — below 2^52 pixels — thanks to the guarding equality
check). -/
def detect_image_size (dataSize : Nat) : Option (Nat × Nat) :=
  let pc := dataSize / 4
  match detectFromList common_sizes pc with
  | some wh => some wh
  | none =>
    let s := Nat.sqrt pc
    if s * s = pc then some (s, s) else none

/-- Success/failure oracle for the fallible library calls the converter
wraps in `try/except`. -/
structure IOEnv where
  copyOk : FPath → Bool
  imageSaveOk : FPath → Bool
  configSaveOk : FPath → Bool

/-- Raw bytes of a file (`open(path, 'rb').read()`); text files are
ASCII-modelled. -/
def fileBytes : FileData → List Nat
  | .bin bs => bs
  | .text s => s.toList.map Char.toNat
  | .config _ => []

/-- The ARGB→RGBA shuffle loop of `convert_argb_to_png` (lines 163-169):
`a, r, g, b = data[i..i+3]` written back as `r, g, b, a`. -/
def argbToRgba : List Nat → List Nat
  | a :: r :: g :: b :: rest => r :: g :: b :: a :: argbToRgba rest
  | _ => []

/-- `LegacyConverter.convert_argb_to_png`: missing file fails; a size
mismatch triggers `_detect_image_size`, whose failure fails the
conversion; `Image.frombytes('RGBA', ...)` needs exactly `w*h*4` bytes
(otherwise it, or the shuffle loop's IndexError, raises inside the
`try`); `img.save` may raise (oracle). On success `logo.png` is written
as the RGBA buffer. -/
def convert_argb_to_png (env : IOEnv) (fs : FS) (argb png : FPath)
    (w h : Nat) : Bool × FS :=
  if (fs.pathExists argb) = false then (false, fs)
  else
    match fs.fileGet argb with
    | none => (false, fs)
    | some fd =>
      let data := fileBytes fd
      let wh :=
        if data.length = w * h * 4 then some (w, h)
        else detect_image_size data.length
      match wh with
      | none => (false, fs)
      | some (w', h') =>
        if data.length = w' * h' * 4 then
          if env.imageSaveOk png then (true, fs.write png (.bin (argbToRgba data)))
          else (false, fs)
        else (false, fs)

/-- `LegacyConverter.copy_video_file`: missing source fails; `copy2` on a
directory raises (caught); otherwise the oracle decides, and success
copies the content. -/
def copy_video_file (env : IOEnv) (fs : FS) (src dst : FPath) : Bool × FS :=
  if (fs.pathExists src) = false then (false, fs)
  else
    match fs.fileGet src with
    | some fd => if env.copyOk src then (true, fs.write dst fd) else (false, fs)
    | none => (false, fs)

/-- `LegacyConverter.generate_new_config`: builds the new-schema record
(name/description from the folder name, loop file `loop.mp4`, overlay
color from the legacy config, logo/icon set only when `dst/logo.png`
exists) and saves it as `epconfig.json` (oracle-fallible). -/
def generate_new_config (env : IOEnv) (fs : FS) (legacy : LegacyConfig)
    (folderName : String) (dst : FPath) : Bool × FS :=
  let hasLogo := fs.pathExists (dst ++ ["logo.png"])
  let cfg : NewConfig := {
    name := folderName
    description := "从老素材转换: " ++ folderName
    loopFile := "loop.mp4"
    operatorName := folderName
    color := legacy.color
    logo := if hasLogo then some "logo.png" else none
    icon := if hasLogo then some "logo.png" else none }
  if env.configSaveOk (dst ++ ["epconfig.json"]) then
    (true, fs.write (dst ++ ["epconfig.json"]) (.config cfg))
  else (false, fs)

/-- `ConversionResult` (dataclass). -/
structure ConversionResult where
  success : Bool
  src_path : FPath
  dst_path : FPath
  message : String
  files_converted : List String
deriving DecidableEq

/-- `os.path.basename` on a component path. -/
def basename (p : FPath) : String := p.getLast?.getD ""

/-- `LegacyConverter.convert_folder`: detection failure appends and
returns a failure result without touching the filesystem; otherwise the
destination is created and the three conversion steps run, each appending
its filename on success; `success` is `len(files_converted) > 0`. The
third component is the updated `self._results` list. -/
def convert_folder (env : IOEnv) (fs : FS) (results : List ConversionResult)
    (src dst : FPath) : ConversionResult × FS × List ConversionResult :=
  let folderName := basename src
  if (detect_legacy_folder fs src) = false then
    let r : ConversionResult := ⟨false, src, dst, "不是有效的老素材格式", []⟩
    (r, fs, results ++ [r])
  else
    let fs1 := fs.mkdir dst
    let legacy := parse_legacy_config fs1 src
    let logoStep :=
      if fs1.pathExists (src ++ ["logo.argb"]) then
        convert_argb_to_png env fs1 (src ++ ["logo.argb"]) (dst ++ ["logo.png"]) 256 256
      else (false, fs1)
    let files1 := if logoStep.1 then ["logo.png"] else []
    let loopStep := copy_video_file env logoStep.2 (src ++ ["loop.mp4"]) (dst ++ ["loop.mp4"])
    let files2 := files1 ++ (if loopStep.1 then ["loop.mp4"] else [])
    let cfgStep := generate_new_config env loopStep.2 legacy folderName dst
    let files3 := files2 ++ (if cfgStep.1 then ["epconfig.json"] else [])
    let r : ConversionResult :=
      ⟨decide (0 < files3.length), src, dst,
        "已转换 " ++ toString files3.length ++ " 个文件", files3⟩
    (r, cfgStep.2, results ++ [r])

/-- The folder-collection loop of `batch_convert` (lines 374-378):
immediate children of `src_root` that are directories and pass
detection. -/
def legacyFolders (fs : FS) (srcRoot : FPath) : List String :=
  (fs.listdir srcRoot).filter
    (fun name => fs.isDir (srcRoot ++ [name]) && detect_legacy_folder fs (srcRoot ++ [name]))

/-- The `for i, (name, src_path) in enumerate(folders)` loop of
`batch_convert` (lines 390-395): converts each folder in order, threading
the filesystem and `self._results`. -/
def convertLoop (env : IOEnv) (srcRoot dstRoot : FPath) :
    List String → FS → List ConversionResult → FS × List ConversionResult
  | [], fs, results => (fs, results)
  | name :: rest, fs, results =>
    let step := convert_folder env fs results (srcRoot ++ [name]) (dstRoot ++ [name])
    convertLoop env srcRoot dstRoot rest step.2.1 step.2.2

/-- `LegacyConverter.batch_convert`: clears `self._results`, returns `[]`
for a missing source root or when no legacy folder is found, otherwise
creates the destination root and converts each collected folder in order.
Returns (returned list, final filesystem, final `self._results`). The
`progress_callback` only reports and is not modelled. -/
def batch_convert (env : IOEnv) (fs : FS) (_results : List ConversionResult)
    (srcRoot dstRoot : FPath) :
    List ConversionResult × FS × List ConversionResult :=
  let results : List ConversionResult := []
  if (fs.isDir srcRoot) = false then ([], fs, results)
  else
    let folders := legacyFolders fs srcRoot
    if folders.isEmpty then ([], fs, results)
    else
      let fs1 := fs.mkdir dstRoot
      let final := convertLoop env srcRoot dstRoot folders fs1 results
      (final.2, final.1, final.2)

/-- `LegacyConverter.get_summary`. -/
def get_summary (results : List ConversionResult) : String :=
  if results.isEmpty then "没有转换结果"
  else
    let successCount := (results.filter (fun r => r.success)).length
    let totalCount := results.length
    let totalFiles := (results.map (fun r => r.files_converted.length)).sum
    "转换完成: " ++ toString successCount ++ "/" ++ toString totalCount ++
      " 个文件夹成功, 共 " ++ toString totalFiles ++ " 个文件"

theorem convert_folder_src (env : IOEnv) (fs : FS) (results : List ConversionResult)
    (src dst : FPath) :
    ((convert_folder env fs results src dst).1).src_path = src := by
  unfold convert_folder
  by_cases hdet : detect_legacy_folder fs src = false <;> simp [hdet]

theorem convert_folder_appends (env : IOEnv) (fs : FS) (results : List ConversionResult)
    (src dst : FPath) :
    (convert_folder env fs results src dst).2.2
      = results ++ [(convert_folder env fs results src dst).1] := by
  unfold convert_folder
  by_cases hdet : detect_legacy_folder fs src = false <;> simp [hdet]

theorem convertLoop_results (env : IOEnv) (srcRoot dstRoot : FPath) :
    ∀ (names : List String) (fs : FS) (acc : List ConversionResult),
    ∃ rs : List ConversionResult,
      (convertLoop env srcRoot dstRoot names fs acc).2 = acc ++ rs ∧
      rs.map (fun r => r.src_path) = names.map (fun name => srcRoot ++ [name]) := by
  intro names
  induction names with
  | nil => exact fun fs acc => ⟨[], by simp [convertLoop], by simp⟩
  | cons n ns ih =>
    intro fs acc
    obtain ⟨rs, h1, h2⟩ := ih
      (convert_folder env fs acc (srcRoot ++ [n]) (dstRoot ++ [n])).2.1
      (convert_folder env fs acc (srcRoot ++ [n]) (dstRoot ++ [n])).2.2
    refine ⟨(convert_folder env fs acc (srcRoot ++ [n]) (dstRoot ++ [n])).1 :: rs, ?_, ?_⟩
    · show (convertLoop env srcRoot dstRoot ns
        (convert_folder env fs acc (srcRoot ++ [n]) (dstRoot ++ [n])).2.1
        (convert_folder env fs acc (srcRoot ++ [n]) (dstRoot ++ [n])).2.2).2 = _
      rw [h1, convert_folder_appends]
      simp
    · simp only [List.map_cons, h2, convert_folder_src]

/-- C4: a run of `batch_convert` produces exactly one `ConversionResult`
per folder passing detection, in listing order, whatever the
success/failure oracle says — so a failure while converting one folder
(any combination of failing copy/convert/save calls) never prevents the
remaining folders from being converted or from producing their own
result. -/
theorem batch_convert_one_result_per_folder (env : IOEnv) (fs : FS)
    (results : List ConversionResult) (srcRoot dstRoot : FPath) :
    ((batch_convert env fs results srcRoot dstRoot).1).length
        = (if fs.isDir srcRoot then legacyFolders fs srcRoot else []).length ∧
    ((batch_convert env fs results srcRoot dstRoot).1).map (fun r => r.src_path)
        = (if fs.isDir srcRoot then legacyFolders fs srcRoot else []).map
            (fun name => srcRoot ++ [name]) := by
  unfold batch_convert
  by_cases hdir : fs.isDir srcRoot = false
  · simp [hdir]
  · have hdir' : fs.isDir srcRoot = true := by
      revert hdir; cases fs.isDir srcRoot <;> simp
    rw [if_neg hdir]
    simp only [hdir', if_true]
    by_cases hemp : (legacyFolders fs srcRoot).isEmpty = true
    · have hnil : legacyFolders fs srcRoot = [] := by
        simpa using hemp
      simp [hemp, hnil]
    · rw [if_neg hemp]
      obtain ⟨rs, h1, h2⟩ := convertLoop_results env srcRoot dstRoot
        (legacyFolders fs srcRoot) (fs.mkdir dstRoot) []
      rw [h1]
      simp only [List.nil_append]
      constructor
      · have := congrArg List.length h2
        simpa using this
      · exact h2

/-- C10: `batch_convert` first clears the accumulated results (its output
is independent of the prior `self._results`), the returned list is
exactly the `self._results` state left by the run (one appended entry per
converted folder), and `get_summary` over that state therefore aggregates
only the most recent batch. -/
theorem batch_convert_clears_results (env : IOEnv) (fs : FS)
    (st st' : List ConversionResult) (srcRoot dstRoot : FPath) :
    batch_convert env fs st srcRoot dstRoot = batch_convert env fs st' srcRoot dstRoot ∧
    (batch_convert env fs st srcRoot dstRoot).2.2
      = (batch_convert env fs st srcRoot dstRoot).1 ∧
    get_summary (batch_convert env fs st srcRoot dstRoot).2.2
      = get_summary (batch_convert env fs [] srcRoot dstRoot).1 := by
  have hstate : (batch_convert env fs st srcRoot dstRoot).2.2
      = (batch_convert env fs st srcRoot dstRoot).1 := by
    unfold batch_convert
    by_cases hdir : fs.isDir srcRoot = false
    · simp [hdir]
    · rw [if_neg hdir]
      by_cases hemp : (legacyFolders fs srcRoot).isEmpty = true
      · simp [hemp]
      · rw [if_neg hemp]
  refine ⟨rfl, hstate, ?_⟩
  rw [hstate]
  rfl


/-- A success/failure oracle under which every fallible call succeeds. -/
def envAll : IOEnv := ⟨fun _ => true, fun _ => true, fun _ => true⟩

/-- C9: when detection fails, `convert_folder` returns (and appends) a
result with `success = false` and no converted files, and performs no
filesystem effect: the destination directory is not created and no file
is written. -/
theorem convert_folder_detect_fail_no_effect (env : IOEnv) (fs : FS)
    (results : List ConversionResult) (src dst : FPath)
    (hdet : detect_legacy_folder fs src = false) :
    convert_folder env fs results src dst =
      (⟨false, src, dst, "不是有效的老素材格式", []⟩, fs,
        results ++ [⟨false, src, dst, "不是有效的老素材格式", []⟩]) := by
  unfold convert_folder
  simp [hdet]

/-- Witness for `convert_folder_detect_fail_no_effect` on an empty
filesystem. -/
theorem convert_folder_detect_fail_no_effect_witness :
    convert_folder envAll ⟨[], []⟩ [] ["a"] ["b"] =
      (⟨false, ["a"], ["b"], "不是有效的老素材格式", []⟩, ⟨[], []⟩,
        [⟨false, ["a"], ["b"], "不是有效的老素材格式", []⟩]) := by
  have h := convert_folder_detect_fail_no_effect envAll ⟨[], []⟩ [] ["a"] ["b"] (by rfl)
  simpa using h

theorem detectFromList_eq_find (pc : Nat) :
    ∀ l : List (Nat × Nat),
      detectFromList l pc = l.find? (fun p => decide (p.1 * p.2 = pc)) := by
  intro l
  induction l with
  | nil => rfl
  | cons p rest ih =>
    obtain ⟨w, h⟩ := p
    by_cases hm : w * h = pc
    · rw [detectFromList, if_pos hm, List.find?_cons_of_pos _ (by simpa using hm)]
    · rw [detectFromList, if_neg hm, List.find?_cons_of_neg _ (by simpa using hm), ih]

/-- C5: `_detect_image_size` divides the byte count by 4 to get a pixel
count, returns the first matching entry of the fixed ordered common-size
list, falls back to the perfect-square dimension, and otherwise returns
no dimensions — in which case `convert_argb_to_png` fails for a file of
that byte count whose declared dimensions also do not match. -/
theorem detect_image_size_spec :
    (∀ d wh, common_sizes.find? (fun p => decide (p.1 * p.2 = d / 4)) = some wh →
        detect_image_size d = some wh) ∧
    (∀ d n, common_sizes.find? (fun p => decide (p.1 * p.2 = d / 4)) = none →
        d / 4 = n * n → detect_image_size d = some (n, n)) ∧
    (∀ d, common_sizes.find? (fun p => decide (p.1 * p.2 = d / 4)) = none →
        (∀ n, d / 4 ≠ n * n) → detect_image_size d = none) ∧
    (∀ (env : IOEnv) (fs : FS) (argb png : FPath) (w h : Nat) (fd : FileData),
        fs.fileGet argb = some fd →
        (fileBytes fd).length ≠ w * h * 4 →
        detect_image_size (fileBytes fd).length = none →
        convert_argb_to_png env fs argb png w h = (false, fs)) := by
  refine ⟨?_, ?_, ?_, ?_⟩
  · intro d wh hfind
    simp only [detect_image_size]
    rw [detectFromList_eq_find, hfind]
  · intro d n hfind hsq
    simp only [detect_image_size]
    rw [detectFromList_eq_find, hfind]
    have hs : Nat.sqrt (d / 4) = n := by rw [hsq]; exact Nat.sqrt_eq n
    simp only [hs]
    rw [if_pos hsq.symm]
  · intro d hfind hnsq
    simp only [detect_image_size]
    rw [detectFromList_eq_find, hfind]
    have hns : ¬ (Nat.sqrt (d / 4) * Nat.sqrt (d / 4) = d / 4) :=
      fun hcon => hnsq _ hcon.symm
    simp [hns]
  · intro env fs argb png w h fd hget hne hdet
    unfold convert_argb_to_png
    have hex : fs.pathExists argb = true := by
      simp [FS.pathExists, hget]
    simp [hex, hget, hne, hdet]

/-- A file of 20 raw bytes (pixel count 5: unmatched and not square). -/
def fsArgb : FS := ⟨[], [(["x"], .bin (List.replicate 20 0))]⟩

/-- Witness for `detect_image_size_spec`: byte count 20 has no detected
size and fails the conversion of a 20-byte `logo.argb`. -/
theorem detect_image_size_spec_witness :
    detect_image_size 20 = none ∧
    convert_argb_to_png envAll fsArgb ["x"] ["y"] 256 256 = (false, fsArgb) := by
  have h5 : ∀ n : Nat, 20 / 4 ≠ n * n := by
    intro n
    match n with
    | 0 => decide
    | 1 => decide
    | 2 => decide
    | (m + 3) =>
      have h9 : 3 * 3 ≤ (m + 3) * (m + 3) :=
        Nat.mul_le_mul (by omega) (by omega)
      omega
  have hdet : detect_image_size 20 = none :=
    detect_image_size_spec.2.2.1 20 (by decide) h5
  refine ⟨hdet, ?_⟩
  exact detect_image_size_spec.2.2.2 envAll fsArgb ["x"] ["y"] 256 256
    (.bin (List.replicate 20 0)) (by decide) (by decide) (by simpa using hdet)

/-- C6: `parse_legacy_config` never propagates an error: an absent file
yields the default; token 0 (when present and parseable) becomes the
version; an 8-hex-digit token 1 loses its leading alpha pair
(`"#" + last 6`), a 6-digit token 1 becomes `"#" + digits`; a failing
`int(...)` degrades to the full default; and the three documented
examples hold. -/
theorem parse_config_spec :
    (∀ (fs : FS) (src : FPath), fs.fileGet (src ++ ["epconfig.txt"]) = none →
        parse_legacy_config fs src = defaultConfig) ∧
    (∀ s t0 rest n, legacyTokens s = t0 :: rest → pyInt? t0 = some n →
        (parseLegacyContent s).version = n) ∧
    (∀ s t0 t1 rest n, legacyTokens s = t0 :: t1 :: rest → pyInt? t0 = some n →
        t1.length = 8 → (∀ ch ∈ t1.toList, isHexChar ch = true) →
        parseLegacyContent s = ⟨n, "#" ++ pyDrop t1 2⟩) ∧
    (∀ s t0 t1 rest n, legacyTokens s = t0 :: t1 :: rest → pyInt? t0 = some n →
        t1.length = 6 → (∀ ch ∈ t1.toList, isHexChar ch = true) →
        parseLegacyContent s = ⟨n, "#" ++ t1⟩) ∧
    (∀ s t0 rest, legacyTokens s = t0 :: rest → pyInt? t0 = none →
        parseLegacyContent s = defaultConfig) ∧
    parseLegacyContent "0 ff112233" = ⟨0, "#112233"⟩ ∧
    parseLegacyContent "" = defaultConfig ∧
    parseLegacyContent "5" = ⟨5, "#000000"⟩ := by
  refine ⟨?_, ?_, ?_, ?_, ?_, ?_, ?_, ?_⟩
  · intro fs src h
    unfold parse_legacy_config
    rw [h]
  · intro s t0 rest n ht hi
    unfold parseLegacyContent
    rw [ht]
    simp only [parseTokens, hi]
    match rest with
    | [] => rfl
    | t1 :: r =>
      by_cases hl : t1.length = 8 <;> simp [hl]
  · intro s t0 t1 rest n ht hi hl _
    unfold parseLegacyContent
    rw [ht]
    simp [parseTokens, hi, hl]
  · intro s t0 t1 rest n ht hi hl _
    unfold parseLegacyContent
    rw [ht]
    have h8 : ¬ (t1.length = 8) := by omega
    simp [parseTokens, hi, h8]
  · intro s t0 rest ht hi
    unfold parseLegacyContent
    rw [ht]
    simp [parseTokens, hi]
  · decide
  · decide
  · decide

/-- Witness for `parse_config_spec`: an 8-hex-digit color token loses its
alpha pair. -/
theorem parse_config_spec_witness :
    parseLegacyContent "9 ffabcdef" = ⟨9, "#abcdef"⟩ := by
  have h := parse_config_spec.2.2.1 "9 ffabcdef" "9" "ffabcdef" [] 9
    (by decide) (by decide) (by decide) (by decide)
  simpa using h

/-!
Exception-aware variants restoring the uncaught `os.makedirs` error path:
`convert_folder` calls `os.makedirs(dst_dir, exist_ok=True)` outside any
`try/except` (legacy_converter.py:321) and `batch_convert`'s loop has no
handler either (lines 390-395), so a `FileExistsError` raised there
propagates to the caller and aborts the whole batch. On the success path
`FS.mkdirE` returns exactly `FS.mkdir`'s state, so the remaining
behaviour is `convert_folder`'s.
-/

/-- `convert_folder` with the `os.makedirs` error path: detection failure
still returns before the `makedirs` call; otherwise a `FileExistsError`
from creating `dst` propagates, and on success the behaviour is
`convert_folder`'s (whose internal `FS.mkdir` coincides with the
successful `FS.mkdirE`). -/
def convert_folderE (env : IOEnv) (fs : FS) (results : List ConversionResult)
    (src dst : FPath) :
    Except String (ConversionResult × FS × List ConversionResult) :=
  if (detect_legacy_folder fs src) = false then
    .ok (convert_folder env fs results src dst)
  else
    match fs.mkdirE dst with
    | .error e => .error e
    | .ok _ => .ok (convert_folder env fs results src dst)

/-- The batch loop with the propagating `makedirs` exception: the first
folder whose conversion raises aborts the loop, and the remaining folders
are never converted. -/
def convertLoopE (env : IOEnv) (srcRoot dstRoot : FPath) :
    List String → FS → List ConversionResult →
      Except String (FS × List ConversionResult)
  | [], fs, results => .ok (fs, results)
  | name :: rest, fs, results =>
    match convert_folderE env fs results (srcRoot ++ [name]) (dstRoot ++ [name]) with
    | .error e => .error e
    | .ok step => convertLoopE env srcRoot dstRoot rest step.2.1 step.2.2

/-- `batch_convert` with the `os.makedirs` error paths (for `dst_root`
and for each folder's destination): an uncaught exception reaches the
caller instead of a result list. -/
def batch_convertE (env : IOEnv) (fs : FS) (_results : List ConversionResult)
    (srcRoot dstRoot : FPath) :
    Except String (List ConversionResult × FS × List ConversionResult) :=
  let results : List ConversionResult := []
  if (fs.isDir srcRoot) = false then .ok ([], fs, results)
  else
    let folders := legacyFolders fs srcRoot
    if folders.isEmpty then .ok ([], fs, results)
    else
      match fs.mkdirE dstRoot with
      | .error e => .error e
      | .ok fs1 =>
        match convertLoopE env srcRoot dstRoot folders fs1 results with
        | .error e => .error e
        | .ok final => .ok (final.2, final.1, final.2)

theorem find_key_write (l : List (FPath × FileData)) (p q : FPath) (d : FileData)
    (h : p ≠ q) :
    (l.filter (fun e => !(e.1 == q)) ++ [(q, d)]).find? (fun e => e.1 == p)
      = l.find? (fun e => e.1 == p) := by
  induction l with
  | nil =>
    have hqp : ((q, d).1 == p) = false := by
      simp only [beq_eq_false_iff_ne]
      exact fun hcon => h hcon.symm
    rw [List.filter_nil, List.nil_append]
    simp only [List.find?, hqp]
  | cons e l ih =>
    rw [List.filter_cons]
    by_cases hep : e.1 = p
    · have hne : (e.1 == q) = false := by
        rw [hep]
        exact beq_eq_false_iff_ne.mpr h
      have hkeep : (!(e.1 == q)) = true := by rw [hne]; rfl
      have hepb : (e.1 == p) = true := by simpa using hep
      rw [if_pos hkeep, List.cons_append]
      simp only [List.find?, hepb]
    · have hskip : (e.1 == p) = false := by simpa using hep
      by_cases hq2 : (e.1 == q) = true
      · rw [if_neg (by simp [hq2])]
        simp only [List.find?, hskip]
        exact ih
      · rw [if_pos (by simpa using hq2), List.cons_append]
        simp only [List.find?, hskip]
        exact ih

theorem fileGet_write_ne (fs : FS) (p q : FPath) (d : FileData) (h : p ≠ q) :
    (fs.write q d).fileGet p = fs.fileGet p := by
  unfold FS.write FS.fileGet
  rw [find_key_write fs.files p q d h]

theorem fileGet_mkdir (fs : FS) (p q : FPath) :
    (fs.mkdir p).fileGet q = fs.fileGet q := by
  unfold FS.mkdir FS.fileGet
  split <;> rfl

theorem convert_argb_fileGet_ne (env : IOEnv) (fs : FS) (argb png : FPath)
    (w h : Nat) (q : FPath) (hq : q ≠ png) :
    ((convert_argb_to_png env fs argb png w h).2).fileGet q = fs.fileGet q := by
  unfold convert_argb_to_png
  dsimp only
  repeat' split
  all_goals first
    | rfl
    | exact fileGet_write_ne fs q png _ hq

theorem copy_video_fileGet_ne (env : IOEnv) (fs : FS) (src dst : FPath)
    (q : FPath) (hq : q ≠ dst) :
    ((copy_video_file env fs src dst).2).fileGet q = fs.fileGet q := by
  unfold copy_video_file
  repeat' split
  all_goals first
    | rfl
    | exact fileGet_write_ne fs q dst _ hq

theorem gen_config_fileGet_ne (env : IOEnv) (fs : FS) (legacy : LegacyConfig)
    (folderName : String) (dst : FPath) (q : FPath)
    (hq : q ≠ dst ++ ["epconfig.json"]) :
    ((generate_new_config env fs legacy folderName dst).2).fileGet q
      = fs.fileGet q := by
  unfold generate_new_config
  dsimp only
  repeat' split
  all_goals first
    | rfl
    | exact fileGet_write_ne fs q (dst ++ ["epconfig.json"]) _ hq

theorem ne_of_parent_length {q dst : FPath} {n : String}
    (hq : q.length ≠ dst.length + 1) : q ≠ dst ++ [n] := by
  intro hcon
  apply hq
  rw [hcon, List.length_append, List.length_singleton]

/-- All files `convert_folder` writes live directly inside `dst`, so any
path of a different depth is untouched. -/
theorem convert_folder_fileGet_ne (env : IOEnv) (fs : FS)
    (results : List ConversionResult) (src dst : FPath) (q : FPath)
    (hq : q.length ≠ dst.length + 1) :
    ((convert_folder env fs results src dst).2.1).fileGet q = fs.fileGet q := by
  unfold convert_folder
  by_cases hdet : detect_legacy_folder fs src = false
  · rw [if_pos hdet]
  · rw [if_neg hdet]
    dsimp only
    rw [gen_config_fileGet_ne _ _ _ _ _ _ (ne_of_parent_length hq),
        copy_video_fileGet_ne _ _ _ _ _ (ne_of_parent_length hq)]
    by_cases hlogo : (fs.mkdir dst).pathExists (src ++ ["logo.argb"]) = true
    · rw [if_pos hlogo,
          convert_argb_fileGet_ne _ _ _ _ _ _ _ (ne_of_parent_length hq),
          fileGet_mkdir]
    · rw [if_neg hlogo, fileGet_mkdir]

theorem mkdirE_ok_of_free (fs : FS) (p : FPath)
    (hfree : (fs.fileGet p).isNone = true) :
    fs.mkdirE p = .ok (fs.mkdir p) := by
  unfold FS.mkdirE FS.mkdir
  by_cases hd : fs.isDir p = true
  · rw [if_pos hd, if_pos hd]
  · rw [if_neg hd, if_neg hd, if_neg (by simp [Option.isNone_iff_eq_none.mp hfree])]

theorem convert_folderE_ok_of_free (env : IOEnv) (fs : FS)
    (results : List ConversionResult) (src dst : FPath)
    (hfree : (fs.fileGet dst).isNone = true) :
    convert_folderE env fs results src dst
      = .ok (convert_folder env fs results src dst) := by
  unfold convert_folderE
  by_cases hdet : detect_legacy_folder fs src = false
  · rw [if_pos hdet]
  · rw [if_neg hdet, mkdirE_ok_of_free fs dst hfree]

theorem convertLoopE_ok (env : IOEnv) (srcRoot dstRoot : FPath) :
    ∀ (names : List String) (fs : FS) (acc : List ConversionResult),
    (∀ name ∈ names, (fs.fileGet (dstRoot ++ [name])).isNone = true) →
    convertLoopE env srcRoot dstRoot names fs acc
      = .ok (convertLoop env srcRoot dstRoot names fs acc) := by
  intro names
  induction names with
  | nil => intro fs acc _; rfl
  | cons n ns ih =>
    intro fs acc hfree
    rw [convertLoopE, convert_folderE_ok_of_free env fs acc _ _
      (hfree n (List.mem_cons_self n ns))]
    simp only
    rw [ih _ _ (fun name hname => ?_), convertLoop]
    rw [convert_folder_fileGet_ne env fs acc (srcRoot ++ [n]) (dstRoot ++ [n])
      (dstRoot ++ [name]) (by simp)]
    exact hfree name (List.mem_cons_of_mem n hname)

/-- When no destination path is occupied by a regular file, the
exception-aware batch completes and coincides with the always-succeeding
model. -/
theorem batch_convertE_completes (env : IOEnv) (fs : FS)
    (results : List ConversionResult) (srcRoot dstRoot : FPath)
    (hroot : (fs.fileGet dstRoot).isNone = true)
    (hfree : ∀ name ∈ legacyFolders fs srcRoot,
        (fs.fileGet (dstRoot ++ [name])).isNone = true) :
    batch_convertE env fs results srcRoot dstRoot
      = .ok (batch_convert env fs results srcRoot dstRoot) := by
  unfold batch_convertE batch_convert
  by_cases hdir : fs.isDir srcRoot = false
  · rw [if_pos hdir, if_pos hdir]
  · rw [if_neg hdir, if_neg hdir]
    by_cases hemp : (legacyFolders fs srcRoot).isEmpty = true
    · rw [if_pos hemp, if_pos hemp]
    · rw [if_neg hemp, if_neg hemp, mkdirE_ok_of_free fs dstRoot hroot]
      simp only
      rw [convertLoopE_ok env srcRoot dstRoot _ _ _ (fun name hname => ?_)]
      rw [fileGet_mkdir]
      exact hfree name hname

/-- A source tree with two valid legacy folders `a`, `b`, where the
destination of `a` (`dst/a`) is occupied by a regular file. -/
def fsAbort : FS :=
  ⟨[["src"], ["src", "a"], ["src", "b"], ["dst"]],
   [(["src", "a", "epconfig.txt"], .text "0"),
    (["src", "a", "loop.mp4"], .bin []),
    (["src", "b", "epconfig.txt"], .text "0"),
    (["src", "b", "loop.mp4"], .bin []),
    (["dst", "a"], .bin [])]⟩

/-- C4 counterexample: two folders pass detection, but converting the
first raises `FileExistsError` from the uncaught
`os.makedirs("dst/a", exist_ok=True)` (the path is a regular file), so
the batch aborts: no `ConversionResult` list reaches the caller and the
second folder is never converted — one folder's failure does prevent the
remaining folders. -/
theorem batch_convert_makedirs_aborts :
    legacyFolders fsAbort ["src"] = ["a", "b"] ∧
    batch_convertE envAll fsAbort [] ["src"] ["dst"] = .error "FileExistsError" := by
  exact ⟨rfl, rfl⟩

/-- C4 amended: provided no destination path (`dst_root` or
`dst_root/<name>`) is occupied by a regular file — otherwise the uncaught
`os.makedirs` `FileExistsError` aborts the batch — every run of
`batch_convert` produces exactly one `ConversionResult` per folder
passing detection, in listing order and with that folder as source, for
every success/failure oracle of the caught per-file conversion steps; so
a caught failure while converting one folder never prevents the
remaining folders from being converted or from producing their own
result. -/
theorem batch_convertE_one_result_per_folder (env : IOEnv) (fs : FS)
    (results : List ConversionResult) (srcRoot dstRoot : FPath)
    (hroot : (fs.fileGet dstRoot).isNone = true)
    (hfree : ∀ name ∈ legacyFolders fs srcRoot,
        (fs.fileGet (dstRoot ++ [name])).isNone = true) :
    ∃ out, batch_convertE env fs results srcRoot dstRoot = .ok out ∧
      out.1.length = (if fs.isDir srcRoot then legacyFolders fs srcRoot else []).length ∧
      out.1.map (fun r => r.src_path)
        = (if fs.isDir srcRoot then legacyFolders fs srcRoot else []).map
            (fun name => srcRoot ++ [name]) := by
  refine ⟨batch_convert env fs results srcRoot dstRoot,
    batch_convertE_completes env fs results srcRoot dstRoot hroot hfree, ?_, ?_⟩
  · exact (batch_convert_one_result_per_folder env fs results srcRoot dstRoot).1
  · exact (batch_convert_one_result_per_folder env fs results srcRoot dstRoot).2

/-- A source tree with one valid legacy folder and a fresh destination. -/
def fsOkBatch : FS :=
  ⟨[["src"], ["src", "a"]],
   [(["src", "a", "epconfig.txt"], .text "0"),
    (["src", "a", "loop.mp4"], .bin [])]⟩

/-- Witness for `batch_convertE_one_result_per_folder` on a one-folder
source tree with an unoccupied destination. -/
theorem batch_convertE_one_result_per_folder_witness :
    ∃ out, batch_convertE envAll fsOkBatch [] ["src"] ["dst"] = .ok out ∧
      out.1.length
        = (if fsOkBatch.isDir ["src"] then legacyFolders fsOkBatch ["src"] else []).length ∧
      out.1.map (fun r => r.src_path)
        = (if fsOkBatch.isDir ["src"] then legacyFolders fsOkBatch ["src"] else []).map
            (fun name => ["src"] ++ [name]) := by
  exact batch_convertE_one_result_per_folder envAll fsOkBatch [] ["src"] ["dst"]
    (by rfl) (by decide)

end LegacyConverter
